import Mathlib

/-!
# Verification of the engine-on ETL pipeline

This file gives a shallow embedding of the engine-on event detection and
segmentation pipeline (`app/etl_engineon.py`, `app/etl_engineon_trip_summary.py`)
and proves the specification claims about it.

Modelling conventions:
* Machine floats are modelled by `ℚ`; the float `NaN` is modelled by `Option ℚ`
  with `none` standing for `NaN` (so `pd.to_numeric(..., errors="coerce")`
  failures, unparseable coordinate text, and shifted-out first rows are `none`).
* Timestamps are modelled by their value in minutes (`ℚ`); the pandas
  `time_diff` column is then plain subtraction, exactly as
  `(datetime - prev_dt).total_seconds() / 60` is.
* The transcendental haversine formula is kept abstract: segmentation and
  nearest-facility selection are parametric in a total function
  `h : ℚ → ℚ → ℚ → ℚ → ℚ` standing for the value of `haversine` on non-NaN
  inputs, while the NaN-propagation of the numpy formula (any NaN coordinate
  gives a NaN distance) is modelled explicitly by the `Option` lifting
  `havOpt`.  All theorems about segmentation hold for every such `h`.
* Python string observations that the code makes on the raw `Voltage` cell are
  carried as fields of `Row`: `vSentinel` is `str(v).strip() == "เฟิร์มแวร์ไม่รองรับ"`
  and `vnum` is the result of `pd.to_numeric(v, errors="coerce")` (with
  `float(v)` succeeding exactly when `vnum` is `some`).
* Mongo documents built by the pipeline are modelled as association lists
  `List (String × Val)` mirroring the dict literals in the source.
-/

namespace EngineOn

/-- Engine state labels returned by `_classify_engine_state`
(`"Parking - Engine On"`, `"Parking - Engine Off"`, `"Other"`, `"Unknown"`). -/
inductive EngineState where
  | parkedOn
  | parkedOff
  | other
  | unknown
deriving DecidableEq, Repr

/-- Voltage / firmware version labels returned by `_classify_voltage_type`
(`"v1"` = firmware-not-supported sentinel, `"v2"` = numeric voltage). -/
inductive VoltType where
  | v1
  | v2
deriving DecidableEq, Repr

/-- The parked status literal `"จอดรถ"` compared against by
`_classify_engine_state`. -/
def statusParked : String := "จอดรถ"

/-- Embedding of `_classify_engine_state(v, status)`:
`status != "จอดรถ"` gives `Other`; a NaN voltage (modelled `none`) while parked
gives `Unknown`; `v >= 25.0` gives `Parking - Engine On`, else
`Parking - Engine Off`. -/
def classify_engine_state (v : Option ℚ) (status : String) : EngineState :=
  if status ≠ statusParked then .other
  else
    match v with
    | none => .unknown
    | some x => if 25 ≤ x then .parkedOn else .parkedOff

/-- One row of the per-day driving log after the projections the code applies.
`t` is the parsed `datetime` in minutes; `vnum` is
`pd.to_numeric(Voltage, errors="coerce")`; `vSentinel` is the trimmed string
equality with the sentinel; `place` is the `สถานที่` cell (`none` = missing /
NaN, which pandas equality treats as unequal to everything); `lat`/`lng` are
the result of `_split_latlng` on `พิกัด` (`none` = unparseable → NaN). -/
structure Row where
  t : ℚ
  vnum : Option ℚ
  vSentinel : Bool
  status : String
  place : Option String
  lat : Option ℚ
  lng : Option ℚ
deriving DecidableEq, Repr

/-- Embedding of `_classify_voltage_type(v)`: the sentinel string gives `"v1"`;
otherwise a successful `float(v)` gives `"v2"`; otherwise (the `except` arm)
`None`. -/
def classify_voltage_type (r : Row) : Option VoltType :=
  if r.vSentinel then some .v1
  else if r.vnum.isSome then some .v2
  else none

/-- Embedding of the per-group version resolution
`"v1" if (vtype == "v1").any() else "v2" if (vtype == "v2").any() else None`. -/
def versionOf (rows : List Row) : Option VoltType :=
  if rows.any (fun r => classify_voltage_type r == some VoltType.v1) then some .v1
  else if rows.any (fun r => classify_voltage_type r == some VoltType.v2) then some .v2
  else none

/-- Pandas scalar equality on a possibly-NaN cell: `NaN == x` is false, also
for two NaNs.  Used for the `สถานที่ == prev_place` comparison. -/
def placeEq (a b : Option String) : Bool :=
  match a, b with
  | some x, some y => x == y
  | _, _ => false

/-- Engine state of a row, `_classify_engine_state(vnum, สถานะ)`. -/
def engineStateOf (r : Row) : EngineState :=
  classify_engine_state r.vnum r.status

/-- The row filter building `dfv`: current and previous state both
`"Parking - Engine On"`, same place, `0 < time_diff <= 5` (minutes). -/
def pairQualifies (prev cur : Row) : Bool :=
  (engineStateOf cur == EngineState.parkedOn)
    && (engineStateOf prev == EngineState.parkedOn)
    && placeEq cur.place prev.place
    && decide (0 < cur.t - prev.t)
    && decide (cur.t - prev.t ≤ 5)

/-- The qualifying consecutive pairs of a time-ordered vehicle-day, as
(previous row, current row); `dfv` keeps the current row of each pair. -/
def dfvPairs (rows : List Row) : List (Row × Row) :=
  (rows.zip rows.tail).filter (fun p => pairQualifies p.1 p.2)

/-- A qualifying interval: its `time_diff` in minutes and the (possibly NaN)
coordinates parsed from the current reading's `พิกัด`. -/
structure Interval where
  dt : ℚ
  lat : Option ℚ
  lng : Option ℚ
deriving DecidableEq, Repr

/-- The interval recorded for a qualifying pair: `time_diff` and the current
row's coordinates. -/
def mkInterval (p : Row × Row) : Interval :=
  ⟨p.2.t - p.1.t, p.2.lat, p.2.lng⟩

/-- The list of qualifying intervals of a time-ordered vehicle-day. -/
def intervalsOf (rows : List Row) : List Interval :=
  (dfvPairs rows).map mkInterval

/-- NaN-propagating haversine: numpy's formula returns NaN as soon as one of
the four coordinates is NaN; on non-NaN inputs its value is an (abstract)
total function `h` of the coordinates. -/
def havOpt (h : ℚ → ℚ → ℚ → ℚ → ℚ) (a b : Interval) : Option ℚ :=
  match a.lat, a.lng, b.lat, b.lng with
  | some la, some lo, some lb, some lo2 => some (h la lo lb lo2)
  | _, _, _, _ => none

/-- The event-break condition `(dist > max_distance) | dist.isna()` for one
consecutive pair of intervals. -/
def breakFlag (d : Interval → Interval → Option ℚ) (maxD : ℚ)
    (p c : Interval) : Bool :=
  match d p c with
  | none => true
  | some x => decide (maxD < x)

/-- The per-interval break flags: the first interval's previous coordinates are
NaN (`shift()`), so its distance is NaN and its flag is true; interval `i+1`'s
flag compares it with interval `i`. -/
def eventFlags (d : Interval → Interval → Option ℚ) (maxD : ℚ) :
    List Interval → List Bool
  | [] => []
  | x :: xs => true :: List.zipWith (breakFlag d maxD) (x :: xs) xs

/-- Running sum of the break flags starting from `k`:
`((dist > max_distance) | isna).cumsum()`. -/
def cumsum (k : ℕ) : List Bool → List ℕ
  | [] => []
  | b :: bs =>
    let k2 := if b then k + 1 else k
    k2 :: cumsum k2 bs

/-- The `event_id` column of `dfv`. -/
def eventIds (d : Interval → Interval → Option ℚ) (maxD : ℚ)
    (ivs : List Interval) : List ℕ :=
  cumsum 0 (eventFlags d maxD ivs)

/-- The members of one `groupby("event_id")` group: the intervals whose
`event_id` equals `k`, in row order. -/
def grouped (ps : List (ℕ × Interval)) (k : ℕ) : List Interval :=
  (ps.filter (fun p => p.1 == k)).map (fun p => p.2)

/-- Number of events of a vehicle-day: the largest `event_id`, which is the
number of true break flags. -/
def numEvents (d : Interval → Interval → Option ℚ) (maxD : ℚ)
    (ivs : List Interval) : ℕ :=
  (eventFlags d maxD ivs).count true

/-- Pandas `mean` aggregation of a possibly-NaN column: NaNs are skipped; an
all-NaN (or empty) group yields NaN. -/
def pandasMean (xs : List (Option ℚ)) : Option ℚ :=
  let vs := xs.filterMap id
  if vs.isEmpty then none else some (vs.sum / (vs.length : ℚ))

/-- One aggregated event row: `total_engine_on_min`, centroid `lat`, `lng`. -/
structure EventRec where
  total : ℚ
  lat : Option ℚ
  lng : Option ℚ
deriving DecidableEq, Repr

/-- The `agg` applied to each event group:
`total_engine_on_min = sum(time_diff)`, `lat = mean(lat)`, `lng = mean(lng)`. -/
def aggEvent (g : List Interval) : EventRec :=
  ⟨(g.map Interval.dt).sum, pandasMean (g.map Interval.lat),
    pandasMean (g.map Interval.lng)⟩

/-- The `events` frame of one vehicle-day:
`dfv.groupby("event_id").agg(...)`, with the groups `1, 2, ...` taken in
ascending key order as pandas does. -/
def eventsOf (d : Interval → Interval → Option ℚ) (maxD : ℚ)
    (ivs : List Interval) : List EventRec :=
  (List.range (numEvents d maxD ivs)).map
    (fun j => aggEvent (grouped ((eventIds d maxD ivs).zip ivs) (j + 1)))

/-- Specification-side chunking of the interval list: a new chunk starts
exactly at a break flag.  `acc` holds the current chunk reversed, `prev` is
its most recent member. -/
def chunksGo (d : Interval → Interval → Option ℚ) (maxD : ℚ)
    (prev : Interval) (acc : List Interval) :
    List Interval → List (List Interval)
  | [] => [acc.reverse]
  | y :: ys =>
    if breakFlag d maxD prev y then acc.reverse :: chunksGo d maxD y [y] ys
    else chunksGo d maxD y (y :: acc) ys

/-- Specification-side event segmentation: the maximal runs of intervals not
separated by a break (the first interval always starts the first run). -/
def splitEvents (d : Interval → Interval → Option ℚ) (maxD : ℚ) :
    List Interval → List (List Interval)
  | [] => []
  | x :: xs => chunksGo d maxD x [x] xs

/-- Modelled from the spec: arithmetic mean of a float column with IEEE NaN
propagation — any NaN member makes the mean NaN. -/
def floatMean (xs : List (Option ℚ)) : Option ℚ :=
  if xs.isEmpty then none
  else if xs.all Option.isSome then some ((xs.filterMap id).sum / (xs.length : ℚ))
  else none

/-- Modelled from the spec: an event aggregates the sum of its member
intervals' Δtime and the arithmetic mean of their lat and lng. -/
def specAgg (g : List Interval) : EventRec :=
  ⟨(g.map Interval.dt).sum, floatMean (g.map Interval.lat),
    floatMean (g.map Interval.lng)⟩

/-- A plant (facility) after `dropna(subset=["Latitude","Longitude"])`: its
coordinates are real numbers. -/
structure Plant where
  code : String
  lat : ℚ
  lng : ℚ
deriving DecidableEq, Repr

/-- One row of the `dist_matrix`: the haversine distance from an event centroid
to every plant, NaN (`none`) whenever the centroid has a NaN coordinate. -/
def distRow (h : ℚ → ℚ → ℚ → ℚ → ℚ) (lat lng : Option ℚ)
    (plants : List Plant) : List (Option ℚ) :=
  plants.map (fun p =>
    match lat, lng with
    | some la, some lo => some (h la lo p.lat p.lng)
    | _, _ => none)

/-- The non-NaN entries of a distance row, paired with their indices. -/
def nanEntries (ds : List (Option ℚ)) : List (ℕ × ℚ) :=
  ds.enum.filterMap (fun p => p.2.map (fun v => (p.1, v)))

/-- Left-biased minimum on (index, value) pairs: the running best is replaced
only by a strictly smaller value, so the first minimum wins ties. -/
def minPairAux (a b : ℕ × ℚ) : ℕ × ℚ :=
  if b.2 < a.2 then b else a

/-- Embedding of `np.nanargmin` on one row (together with the subsequent
`min_dist` lookup): the index and value of the first smallest non-NaN entry;
`none` models the `ValueError: All-NaN slice encountered` that numpy raises
when the row has no non-NaN entry. -/
def nanargmin (ds : List (Option ℚ)) : Option (ℕ × ℚ) :=
  match nanEntries ds with
  | [] => none
  | e :: es => some (es.foldl minPairAux e)

/-- Embedding of the nearest-plant assignment for one event row:
`idx = np.nanargmin(...)`, `min_dist = dist_matrix[..., idx]`,
`np.where(min_dist <= max_distance, p_code[idx], None)`.  The `Except` error
is numpy's `ValueError` on an all-NaN row. -/
def nearest_plant (ds : List (Option ℚ)) (codes : List String) (maxD : ℚ) :
    Except String (Option String) :=
  match nanargmin ds with
  | none => .error "All-NaN slice encountered"
  | some (i, md) => .ok (if md ≤ maxD then codes.get? i else none)

/-- Field values of the Mongo documents the pipeline writes. -/
inductive Val where
  | s (x : String)
  | q (x : ℚ)
  | oq (x : Option ℚ)
  | os (x : Option String)
  | n (x : ℕ)
deriving DecidableEq, Repr

/-- One event of a vehicle-day after nearest-plant assignment: `idx` is its
0-based position (the `iterrows` index after `reset_index`), its `event_id`
column value is `idx + 1`. -/
structure EventOut where
  idx : ℕ
  er : EventRec
  nearest : Option String
deriving DecidableEq, Repr

/-- The raw event document written to `raw_engineon` (the dict literal of the
`ReplaceOne`, including `**r.to_dict()`). -/
def rawDoc (plate date dateKey : String) (o : EventOut) : List (String × Val) :=
  [("_id", .s (plate ++ "_" ++ dateKey ++ "_" ++ toString o.idx)),
   ("ทะเบียนพาหนะ", .s plate),
   ("date", .s date),
   ("event_id", .n (o.idx + 1)),
   ("total_engine_on_min", .q o.er.total),
   ("lat", .oq o.er.lat),
   ("lng", .oq o.er.lng),
   ("nearest_plant", .os o.nearest)]

/-- The wire form of a version label. -/
def versionStr : VoltType → String
  | .v1 => "v1"
  | .v2 => "v2"

/-- The daily summary document written to `summary_engineon`: only produced
when some event has a non-null `nearest_plant`, and summing
`total_engine_on_min` over exactly those events. -/
def summaryDoc (plate date dateKey : String) (version : VoltType)
    (events : List EventOut) : Option (List (String × Val)) :=
  let valid := events.filter (fun e => e.nearest.isSome)
  if valid.isEmpty then none
  else
    let totalMin := (valid.map (fun e => e.er.total)).sum
    some [("_id", .s (plate ++ "_" ++ dateKey)),
          ("ทะเบียนพาหนะ", .s plate),
          ("date", .s date),
          ("total_engine_on_min", .q totalMin),
          ("total_engine_on_hr", .q (totalMin / 60)),
          ("version_type", .s (versionStr version))]

/-- Nearest-plant assignment over the whole `events` frame; numpy computes an
N×M matrix and `nanargmin` raises on it as soon as one row is all NaN, so an
error on any row is an error of the whole vehicle-day. -/
def attachNearest (h : ℚ → ℚ → ℚ → ℚ → ℚ) (maxD : ℚ) (plants : List Plant) :
    List EventRec → Except String (List (EventRec × Option String))
  | [] => .ok []
  | e :: es =>
    match nearest_plant (distRow h e.lat e.lng plants) (plants.map Plant.code) maxD with
    | .error err => .error err
    | .ok c =>
      match attachNearest h maxD plants es with
      | .error err => .error err
      | .ok rest => .ok ((e, c) :: rest)

/-- The output of one vehicle-day (one iteration of the `groupby` loop). -/
structure PlateOut where
  version : VoltType
  events : List EventOut
  raw : List (List (String × Val))
  summary : Option (List (String × Val))
deriving DecidableEq, Repr

/-- The per-vehicle-day body of `_process_one_date`, for a time-ordered group
`rows`: resolve the version (`continue` = `.ok none` when neither label
occurs), build `dfv`, `continue` when it is empty, segment, assign nearest
plants (which can raise), and build the raw and summary documents. -/
def processPlate (h : ℚ → ℚ → ℚ → ℚ → ℚ) (maxD : ℚ) (plants : List Plant)
    (plate date dateKey : String) (rows : List Row) :
    Except String (Option PlateOut) :=
  match versionOf rows with
  | none => .ok none
  | some ver =>
    let ivs := intervalsOf rows
    if ivs.isEmpty then .ok none
    else
      match attachNearest h maxD plants (eventsOf (havOpt h) maxD ivs) with
      | .error e => .error e
      | .ok evs =>
        let outs := evs.enum.map (fun p => EventOut.mk p.1 p.2.1 p.2.2)
        .ok (some
          { version := ver
            events := outs
            raw := outs.map (rawDoc plate date dateKey)
            summary := summaryDoc plate date dateKey ver outs })

/-- The sequential scheduling loop `for d in date_list: print(_process_one_date(d))`:
outcomes are printed in order until a date raises, whose exception propagates
and ends the loop; no further date is processed. -/
def run_sequential_dates (f : String → Except String String) :
    List String → List String × Option String
  | [] => ([], none)
  | d :: ds =>
    match f d with
    | .error e => ([], some e)
    | .ok r =>
      let rest := run_sequential_dates f ds
      (r :: rest.1, rest.2)

/-- The `FUEL_RATE` table (liters per hour per vehicle type). -/
def FUEL_RATE : List (String × ℚ) :=
  [("Mixer 10 ล้อ", 2), ("Mixer 6 ล้อ", 1)]

/-- `df["ประเภทยานพาหนะ"].map(FUEL_RATE).fillna(0)` for one row: unknown or
missing vehicle type gives rate 0. -/
def fuelRate (vt : Option String) : ℚ :=
  match vt with
  | none => 0
  | some s => (FUEL_RATE.lookup s).getD 0

/-- Round-half-to-even to an integer, the numpy/pandas rounding rule
(idealized over exact rationals). -/
def roundHalfEven (q : ℚ) : ℤ :=
  let f := ⌊q⌋
  let r := q - (f : ℚ)
  if r < 1 / 2 then f
  else if 1 / 2 < r then f + 1
  else if f % 2 = 0 then f else f + 1

/-- `Series.round(2)` on one value. -/
def round2 (q : ℚ) : ℚ :=
  ((roundHalfEven (q * 100) : ℚ)) / 100

/-- One joined row consumed by `calculate_fuel`, after `#trip` `fillna(0)`:
vehicle type (possibly missing after the left join), trip count, at-facility
minutes (`TotalMinutes`) and not-at-facility minutes. -/
structure FuelRow where
  vtype : Option String
  trips : ℚ
  totalMin : ℚ
  notPlantMin : ℚ
deriving DecidableEq, Repr

/-- Embedding of `calculate_fuel` on one row, returning
(`จำนวนลิตร`, `not_plant_liter`): the plant side subtracts the 30-minute
loading reserve per trip and clips at 0; the not-plant side converts the raw
minutes directly. -/
def calculate_fuel (r : FuelRow) : ℚ × ℚ :=
  let reserve := r.trips * 30
  let diff := max (r.totalMin - reserve) 0
  (round2 (fuelRate r.vtype * (diff / 60)),
   round2 (fuelRate r.vtype * (r.notPlantMin / 60)))

/-- Modelled from the spec: the claimed fuel formula
`liters = rate * max(0, minutes - trips*30) / 60`, rounded to 2 decimals. -/
def specFuelFormula (rate minutes trips : ℚ) : ℚ :=
  round2 (rate * max 0 (minutes - trips * 30) / 60)

/-- A parked, engine-on reading at minute `t` with well-formed coordinates. -/
def rowP (t : ℚ) : Row :=
  ⟨t, some 30, false, statusParked, some "Yard", some 13, some 100⟩

/-- A parked, engine-on reading whose `พิกัด` text is unparseable, so both
coordinates are NaN. -/
def rowBadCoord (t : ℚ) : Row :=
  ⟨t, some 30, false, statusParked, some "Yard", none, none⟩

/-- A parked reading whose voltage is neither the sentinel nor numeric. -/
def rowUnknownVolt (t : ℚ) : Row :=
  ⟨t, none, false, statusParked, some "Yard", some 13, some 100⟩

/-- A concrete instance of the abstract haversine value function. -/
def hZero : ℚ → ℚ → ℚ → ℚ → ℚ := fun _ _ _ _ => 0

/-- A concrete plant. -/
def plantA : Plant := ⟨"P1", 13, 100⟩

/-- A concrete event matched to a facility. -/
def evAt : EventOut := ⟨0, ⟨6, some 13, some 100⟩, some "P1"⟩

/-- A concrete event matched to no facility. -/
def evNull : EventOut := ⟨1, ⟨3, some 1, some 2⟩, none⟩

/-- A per-date worker that fails on the first date of the range and succeeds
on every other date. -/
def badWorker : String → Except String String := fun d =>
  if d = "01/12/2025" then .error "boom" else .ok (d ++ ": ok")

/-- A concrete joined fuel row: a 10-wheel mixer, 1 trip, 60 minutes at
facilities and 60 minutes away from facilities. -/
def fuelRowEx : FuelRow := ⟨some "Mixer 10 ล้อ", 1, 60, 60⟩

/-- The summary document the pipeline writes for the vehicle-day with events
`[evAt, evNull]`. -/
def sumDocEx : List (String × Val) :=
  [("_id", .s "X1_2025-12-01"),
   ("ทะเบียนพาหนะ", .s "X1"),
   ("date", .s "01/12/2025"),
   ("total_engine_on_min", .q 6),
   ("total_engine_on_hr", .q (1 / 10)),
   ("version_type", .s "v2")]

/-! ## Helper lemmas -/

theorem placeEq_iff (a b : Option String) :
    placeEq a b = true ↔ ∃ p, a = some p ∧ b = some p := by
  cases a with
  | none => simp [placeEq]
  | some x =>
    cases b with
    | none => simp [placeEq]
    | some y =>
      simp only [placeEq, beq_iff_eq, Option.some.injEq]
      constructor
      · rintro rfl
        exact ⟨x, rfl, rfl⟩
      · rintro ⟨p, rfl, rfl⟩
        rfl

theorem pairQualifies_iff (prev cur : Row) :
    pairQualifies prev cur = true ↔
      (engineStateOf cur = .parkedOn ∧ engineStateOf prev = .parkedOn ∧
       (∃ p, cur.place = some p ∧ prev.place = some p) ∧
       0 < cur.t - prev.t ∧ cur.t - prev.t ≤ 5) := by
  simp [pairQualifies, Bool.and_eq_true, placeEq_iff, and_assoc]

theorem classify_voltage_type_v1 (r : Row) :
    ((classify_voltage_type r == some VoltType.v1) = true) ↔ r.vSentinel = true := by
  by_cases h : r.vSentinel
  · simp [classify_voltage_type, h]
  · cases hn : r.vnum <;> simp [classify_voltage_type, h, hn]

theorem classify_voltage_type_v2 (r : Row) :
    ((classify_voltage_type r == some VoltType.v2) = true) ↔
      (r.vSentinel = false ∧ r.vnum.isSome = true) := by
  by_cases h : r.vSentinel
  · simp [classify_voltage_type, h]
  · cases hn : r.vnum <;> simp [classify_voltage_type, h, hn]

theorem cumsum_ge (fs : List Bool) (k : ℕ) : ∀ x ∈ cumsum k fs, k ≤ x := by
  induction fs generalizing k with
  | nil => simp [cumsum]
  | cons b bs ih =>
    intro x hx
    simp only [cumsum] at hx
    rcases List.mem_cons.mp hx with rfl | hx2
    · cases b <;> simp
    · have hk2 := ih (if b then k + 1 else k) x hx2
      cases b <;> simp at hk2 <;> omega

theorem grouped_cons (a : ℕ) (y : Interval) (ps : List (ℕ × Interval)) (k : ℕ) :
    grouped ((a, y) :: ps) k =
      if a = k then y :: grouped ps k else grouped ps k := by
  by_cases h : a = k
  · simp [grouped, List.filter_cons, h]
  · simp [grouped, List.filter_cons, h]

theorem grouped_lt (ps : List (ℕ × Interval)) (k : ℕ)
    (h : ∀ p ∈ ps, k < p.1) : grouped ps k = [] := by
  unfold grouped
  rw [List.filter_eq_nil_iff.mpr]
  · rfl
  · intro p hp
    have := h p hp
    simp only [beq_iff_eq]
    omega

theorem zip_cumsum_keys (fs : List Bool) (l : List Interval) (k : ℕ) :
    ∀ p ∈ (cumsum k fs).zip l, k ≤ p.1 := by
  intro p hp
  exact cumsum_ge fs k p.1 (List.of_mem_zip hp).1

/-- The `groupby`-over-`cumsum` reading of the event ids coincides with the
chunking of the interval list at the break flags: for a pending chunk
`acc.reverse` (most recent member `prev`) and ids continuing from `k`, the
chunks are the pending one extended by the group of id `k`, then the groups of
the ids `k+1, k+2, ...` in ascending order. -/
theorem chunksGo_eq_grouped (d : Interval → Interval → Option ℚ) (maxD : ℚ)
    (xs : List Interval) : ∀ (prev : Interval) (acc : List Interval) (k : ℕ),
    chunksGo d maxD prev acc xs =
      (acc.reverse ++
        grouped ((cumsum k (List.zipWith (breakFlag d maxD) (prev :: xs) xs)).zip xs) k)
        :: (List.range ((List.zipWith (breakFlag d maxD) (prev :: xs) xs).count true)).map
            (fun i =>
              grouped
                ((cumsum k (List.zipWith (breakFlag d maxD) (prev :: xs) xs)).zip xs)
                (k + 1 + i)) := by
  induction xs with
  | nil =>
    intro prev acc k
    simp [chunksGo, cumsum, grouped, List.count_nil]
  | cons y ys ih =>
    intro prev acc k
    rw [List.zipWith_cons_cons]
    cases hF : breakFlag d maxD prev y with
    | true =>
      have hcount : (true :: List.zipWith (breakFlag d maxD) (y :: ys) ys).count true =
          (List.zipWith (breakFlag d maxD) (y :: ys) ys).count true + 1 := by
        simp [List.count_cons]
      have hcs : cumsum k (true :: List.zipWith (breakFlag d maxD) (y :: ys) ys) =
          (k + 1) :: cumsum (k + 1) (List.zipWith (breakFlag d maxD) (y :: ys) ys) := by
        simp [cumsum]
      rw [hcount, hcs, List.zip_cons_cons]
      have hkeys := zip_cumsum_keys (List.zipWith (breakFlag d maxD) (y :: ys) ys) ys (k + 1)
      have hgk : grouped (((k + 1), y) ::
          (cumsum (k + 1) (List.zipWith (breakFlag d maxD) (y :: ys) ys)).zip ys) k = [] := by
        rw [grouped_cons, if_neg (by omega), grouped_lt]
        intro p hp
        have := hkeys p hp
        omega
      have hstep : chunksGo d maxD prev acc (y :: ys) =
          acc.reverse :: chunksGo d maxD y [y] ys := by
        rw [chunksGo, if_pos hF]
      rw [hstep, ih y [y] (k + 1), hgk, List.append_nil, List.range_succ_eq_map,
        List.map_cons, List.map_map]
      congr 1
      rw [grouped_cons, if_pos (by omega)]
      simp
      intro a ha
      rw [grouped_cons, if_neg (by omega)]
      congr 1
      omega
    | false =>
      have hcount : (false :: List.zipWith (breakFlag d maxD) (y :: ys) ys).count true =
          (List.zipWith (breakFlag d maxD) (y :: ys) ys).count true := by
        simp [List.count_cons]
      have hcs : cumsum k (false :: List.zipWith (breakFlag d maxD) (y :: ys) ys) =
          k :: cumsum k (List.zipWith (breakFlag d maxD) (y :: ys) ys) := by
        simp [cumsum]
      rw [hcount, hcs, List.zip_cons_cons]
      have hstep : chunksGo d maxD prev acc (y :: ys) =
          chunksGo d maxD y (y :: acc) ys := by
        rw [chunksGo, if_neg (by rw [hF]; exact Bool.false_ne_true)]
      rw [hstep, ih y (y :: acc) k]
      congr 1
      · rw [grouped_cons, if_pos rfl]
        simp
      · refine List.map_congr_left fun a ha => ?_
        rw [grouped_cons, if_neg (by omega)]

/-- The `events` frame is the aggregation of the chunks: pandas `groupby` over
the cumulative-sum event id, taking groups in ascending key order, yields
exactly the maximal runs of intervals between break flags. -/
theorem events_eq_aggEvent_chunks (d : Interval → Interval → Option ℚ) (maxD : ℚ)
    (ivs : List Interval) :
    eventsOf d maxD ivs = (splitEvents d maxD ivs).map aggEvent := by
  cases ivs with
  | nil => rfl
  | cons x xs =>
    rw [eventsOf, numEvents, eventIds, splitEvents, eventFlags,
      chunksGo_eq_grouped d maxD xs x [x] 1]
    have hcount : (true :: List.zipWith (breakFlag d maxD) (x :: xs) xs).count true =
        (List.zipWith (breakFlag d maxD) (x :: xs) xs).count true + 1 := by
      simp [List.count_cons]
    have hcs : cumsum 0 (true :: List.zipWith (breakFlag d maxD) (x :: xs) xs) =
        1 :: cumsum 1 (List.zipWith (breakFlag d maxD) (x :: xs) xs) := by
      simp [cumsum]
    rw [hcount, hcs, List.zip_cons_cons, List.range_succ_eq_map, List.map_cons,
      List.map_cons, List.map_map, List.map_map]
    congr 1
    refine List.map_congr_left fun a ha => ?_
    simp only [Function.comp_apply]
    rw [grouped_cons, if_neg (by omega)]
    congr 2
    omega

theorem havOpt_isSome (h : ℚ → ℚ → ℚ → ℚ → ℚ) (a b : Interval) (x : ℚ)
    (hx : havOpt h a b = some x) :
    a.lat.isSome = true ∧ a.lng.isSome = true ∧
    b.lat.isSome = true ∧ b.lng.isSome = true := by
  rw [havOpt] at hx
  rcases a with ⟨dta, la, loa⟩
  rcases b with ⟨dtb, lb, lob⟩
  cases la <;> cases loa <;> cases lb <;> cases lob <;> simp_all

theorem breakFlag_eq_false (d : Interval → Interval → Option ℚ) (maxD : ℚ)
    (p c : Interval) (hb : breakFlag d maxD p c = false) :
    ∃ x, d p c = some x ∧ ¬ maxD < x := by
  rw [breakFlag] at hb
  cases hd : d p c with
  | none => rw [hd] at hb; simp at hb
  | some x =>
    rw [hd] at hb
    exact ⟨x, rfl, by simpa using hb⟩

/-- Within one chunk, every run of two or more intervals has fully parsed
coordinates: a NaN-coordinate interval always breaks the run on both sides,
so it can only form a singleton chunk. -/
theorem chunksGo_chunks_prop (h : ℚ → ℚ → ℚ → ℚ → ℚ) (maxD : ℚ)
    (xs : List Interval) : ∀ (prev : Interval) (acc : List Interval),
    acc ≠ [] → acc.head? = some prev →
    (2 ≤ acc.length → ∀ a ∈ acc, a.lat.isSome = true ∧ a.lng.isSome = true) →
    ∀ g ∈ chunksGo (havOpt h) maxD prev acc xs,
      g ≠ [] ∧ (2 ≤ g.length → ∀ a ∈ g, a.lat.isSome = true ∧ a.lng.isSome = true) := by
  induction xs with
  | nil =>
    intro prev acc hne hhead hinv g hg
    rw [chunksGo] at hg
    simp only [List.mem_singleton] at hg
    subst hg
    refine ⟨by simpa using hne, ?_⟩
    intro hlen a ha
    rw [List.length_reverse] at hlen
    exact hinv hlen a (List.mem_reverse.mp ha)
  | cons y ys ih =>
    intro prev acc hne hhead hinv g hg
    rw [chunksGo] at hg
    cases hF : breakFlag (havOpt h) maxD prev y with
    | true =>
      rw [if_pos hF] at hg
      rcases List.mem_cons.mp hg with rfl | hg2
      · refine ⟨by simpa using hne, ?_⟩
        intro hlen a ha
        rw [List.length_reverse] at hlen
        exact hinv hlen a (List.mem_reverse.mp ha)
      · exact ih y [y] (by simp) rfl (fun h2 => absurd h2 (by simp)) g hg2
    | false =>
      rw [if_neg (by rw [hF]; exact Bool.false_ne_true)] at hg
      obtain ⟨x, hdx, -⟩ := breakFlag_eq_false _ _ _ _ hF
      obtain ⟨hla, hlo, hlb, hlob⟩ := havOpt_isSome h prev y x hdx
      apply ih y (y :: acc) (by simp) rfl ?_ g hg
      intro h2 a ha
      rcases List.mem_cons.mp ha with rfl | ha2
      · exact ⟨hlb, hlob⟩
      · by_cases hlen2 : 2 ≤ acc.length
        · exact hinv hlen2 a ha2
        · have haccp : acc = [prev] := by
            rcases acc with - | ⟨a0, as⟩
            · exact absurd rfl hne
            · rcases as with - | ⟨a1, as2⟩
              · simp only [List.head?_cons, Option.some.injEq] at hhead
                rw [hhead]
              · exfalso
                apply hlen2
                simp only [List.length_cons]
                omega
          rw [haccp] at ha2
          simp only [List.mem_singleton] at ha2
          subst ha2
          exact ⟨hla, hlo⟩

theorem splitEvents_chunks_prop (h : ℚ → ℚ → ℚ → ℚ → ℚ) (maxD : ℚ)
    (ivs : List Interval) :
    ∀ g ∈ splitEvents (havOpt h) maxD ivs,
      g ≠ [] ∧ (2 ≤ g.length → ∀ a ∈ g, a.lat.isSome = true ∧ a.lng.isSome = true) := by
  cases ivs with
  | nil => intro g hg; exact absurd hg (by simp [splitEvents])
  | cons x xs =>
    rw [splitEvents]
    exact chunksGo_chunks_prop h maxD xs x [x] (by simp) rfl
      (fun h2 => absurd h2 (by simp))

theorem filterMap_all_length (xs : List (Option ℚ))
    (hall : xs.all Option.isSome = true) :
    (xs.filterMap id).length = xs.length := by
  induction xs with
  | nil => rfl
  | cons a t ih =>
    rw [List.all_cons, Bool.and_eq_true] at hall
    cases a with
    | none => simp at hall
    | some w =>
      rw [List.filterMap_cons]
      simp only [id, List.length_cons]
      rw [ih hall.2]

/-- On the columns that actually occur in chunks — all-parsed or singleton —
the NaN-skipping pandas mean agrees with the NaN-propagating arithmetic
mean. -/
theorem mean_eq (xs : List (Option ℚ)) (hne : xs ≠ [])
    (hc : xs.all Option.isSome = true ∨ xs.length = 1) :
    pandasMean xs = floatMean xs := by
  rcases hc with hall | h1
  · have hxe : xs.isEmpty = false := by
      cases xs
      · exact absurd rfl hne
      · rfl
    have hlen := filterMap_all_length xs hall
    rcases hfm : xs.filterMap id with - | ⟨v, vs⟩
    · exfalso
      rw [hfm] at hlen
      exact hne (List.length_eq_zero.mp hlen.symm)
    · have hlen2 : ((v :: vs).length : ℚ) = (xs.length : ℚ) := by
        rw [← hlen, hfm]
      rw [pandasMean, floatMean]
      simp only [hfm, hxe, hall, List.isEmpty_cons, Bool.false_eq_true, if_false,
        if_true]
      rw [hlen2]
  · obtain ⟨a, rfl⟩ := List.length_eq_one.mp h1
    cases a with
    | none => simp [pandasMean, floatMean]
    | some w => simp [pandasMean, floatMean]

theorem aggEvent_eq_specAgg (g : List Interval) (hne : g ≠ [])
    (hinv : 2 ≤ g.length → ∀ a ∈ g, a.lat.isSome = true ∧ a.lng.isSome = true) :
    aggEvent g = specAgg g := by
  have hlen1 : 2 ≤ g.length ∨ g.length = 1 := by
    have h0 : 0 < g.length := List.length_pos.mpr hne
    omega
  have hlat : pandasMean (g.map Interval.lat) = floatMean (g.map Interval.lat) := by
    apply mean_eq _ (by simpa using hne)
    rcases hlen1 with h2 | h1
    · left
      rw [List.all_eq_true]
      intro o ho
      obtain ⟨a, ha, rfl⟩ := List.mem_map.mp ho
      exact (hinv h2 a ha).1
    · right
      simpa using h1
  have hlng : pandasMean (g.map Interval.lng) = floatMean (g.map Interval.lng) := by
    apply mean_eq _ (by simpa using hne)
    rcases hlen1 with h2 | h1
    · left
      rw [List.all_eq_true]
      intro o ho
      obtain ⟨a, ha, rfl⟩ := List.mem_map.mp ho
      exact (hinv h2 a ha).2
    · right
      simpa using h1
  rw [aggEvent, specAgg, hlat, hlng]

/-- The left fold of the left-biased minimum: the result is one of the
candidates, its value is minimal, and under strictly increasing indices it is
the first candidate attaining the minimum. -/
theorem foldl_minPairAux_spec (l : List (ℕ × ℚ)) : ∀ e : ℕ × ℚ,
    (l.foldl minPairAux e ∈ e :: l)
    ∧ (∀ x ∈ e :: l, (l.foldl minPairAux e).2 ≤ x.2)
    ∧ (List.Pairwise (fun a b => a.1 < b.1) (e :: l) →
        ∀ x ∈ e :: l, x.2 ≤ (l.foldl minPairAux e).2 →
          (l.foldl minPairAux e).1 ≤ x.1) := by
  induction l with
  | nil =>
    intro e
    refine ⟨by simp, ?_, ?_⟩
    · intro x hx
      simp only [List.foldl_nil, List.mem_singleton] at hx ⊢
      subst hx
      exact le_refl _
    · intro _ x hx _
      simp only [List.foldl_nil, List.mem_singleton] at hx ⊢
      subst hx
      exact le_refl _
  | cons a t ih =>
    intro e
    rw [List.foldl_cons]
    obtain ⟨ihmem, ihmin, ihfirst⟩ := ih (minPairAux e a)
    have hv2 : (minPairAux e a).2 ≤ e.2 ∧ (minPairAux e a).2 ≤ a.2 := by
      rw [minPairAux]
      split
      · exact ⟨le_of_lt (by assumption), le_refl _⟩
      · exact ⟨le_refl _, le_of_not_lt (by assumption)⟩
    refine ⟨?_, ?_, ?_⟩
    · have he2 : minPairAux e a = a ∨ minPairAux e a = e := by
        rw [minPairAux]
        split
        · exact .inl rfl
        · exact .inr rfl
      rcases List.mem_cons.mp ihmem with hm | hm
      · rcases he2 with h2 | h2
        · rw [hm, h2]
          exact List.mem_cons_of_mem _ (List.mem_cons_self _ _)
        · rw [hm, h2]
          exact List.mem_cons_self _ _
      · exact List.mem_cons_of_mem _ (List.mem_cons_of_mem _ hm)
    · intro x hx
      have hrle : (t.foldl minPairAux (minPairAux e a)).2 ≤ (minPairAux e a).2 :=
        ihmin _ (List.mem_cons_self _ _)
      rcases List.mem_cons.mp hx with rfl | hx2
      · exact le_trans hrle hv2.1
      rcases List.mem_cons.mp hx2 with rfl | hx3
      · exact le_trans hrle hv2.2
      · exact ihmin x (List.mem_cons_of_mem _ hx3)
    · intro hpw x hx hxle
      rw [List.pairwise_cons] at hpw
      obtain ⟨hre, hpw2⟩ := hpw
      have hpwa := hpw2
      rw [List.pairwise_cons] at hpwa
      obtain ⟨hra, hpwt⟩ := hpwa
      have hpw' : List.Pairwise (fun p q : ℕ × ℚ => p.1 < q.1) (minPairAux e a :: t) := by
        rw [List.pairwise_cons]
        refine ⟨?_, hpwt⟩
        intro y hy
        rw [minPairAux]
        split
        · exact hra y hy
        · exact hre y (List.mem_cons_of_mem _ hy)
      have hfirst := ihfirst hpw'
      have hea : e.1 < a.1 := hre a (List.mem_cons_self _ _)
      rcases List.mem_cons.mp hx with hx1 | hx2
      · rw [hx1] at hxle ⊢
        by_cases hc : a.2 < e.2
        · have h2 : minPairAux e a = a := by rw [minPairAux, if_pos hc]
          have hr2 : (t.foldl minPairAux (minPairAux e a)).2 ≤ a.2 :=
            le_trans (ihmin (minPairAux e a) (List.mem_cons_self _ _)) hv2.2
          exact absurd (lt_of_le_of_lt (le_trans hxle hr2) hc) (lt_irrefl _)
        · have h2 : minPairAux e a = e := by rw [minPairAux, if_neg hc]
          have hv : (minPairAux e a).2 = e.2 := by rw [h2]
          have hi : (minPairAux e a).1 = e.1 := by rw [h2]
          have h3 := hfirst (minPairAux e a) (List.mem_cons_self _ _) (by rw [hv]; exact hxle)
          rw [hi] at h3
          exact h3
      rcases List.mem_cons.mp hx2 with hx1 | hx3
      · rw [hx1] at hxle ⊢
        by_cases hc : a.2 < e.2
        · have h2 : minPairAux e a = a := by rw [minPairAux, if_pos hc]
          have hv : (minPairAux e a).2 = a.2 := by rw [h2]
          have hi : (minPairAux e a).1 = a.1 := by rw [h2]
          have h3 := hfirst (minPairAux e a) (List.mem_cons_self _ _) (by rw [hv]; exact hxle)
          rw [hi] at h3
          exact h3
        · have h2 : minPairAux e a = e := by rw [minPairAux, if_neg hc]
          have hv : (minPairAux e a).2 = e.2 := by rw [h2]
          have hi : (minPairAux e a).1 = e.1 := by rw [h2]
          have heler : e.2 ≤ (t.foldl minPairAux (minPairAux e a)).2 :=
            le_trans (le_of_not_lt hc) hxle
          have h3 := hfirst (minPairAux e a) (List.mem_cons_self _ _) (by rw [hv]; exact heler)
          rw [hi] at h3
          exact le_of_lt (lt_of_le_of_lt h3 hea)
      · exact hfirst x (List.mem_cons_of_mem _ hx3) hxle

theorem pairwise_enumFrom {α : Type} (l : List α) :
    ∀ k, List.Pairwise (fun a b : ℕ × α => a.1 < b.1) (List.enumFrom k l) := by
  induction l with
  | nil => intro k; simp
  | cons a t ih =>
    intro k
    rw [List.enumFrom_cons, List.pairwise_cons]
    refine ⟨?_, ih (k + 1)⟩
    rintro ⟨i, x⟩ hy
    have h := List.mem_enumFrom hy
    exact lt_of_lt_of_le (Nat.lt_succ_self k) h.1

theorem pairwise_filterMap_of {α β : Type} (f : α → Option β)
    {R : α → α → Prop} {S : β → β → Prop}
    (hf : ∀ a b, R a b → ∀ x, f a = some x → ∀ y, f b = some y → S x y) :
    ∀ {l : List α}, List.Pairwise R l → List.Pairwise S (l.filterMap f) := by
  intro l hl
  induction hl with
  | nil => simp
  | @cons a l2 hrel _ ih =>
    rw [List.filterMap_cons]
    cases hfa : f a with
    | none => exact ih
    | some x =>
      rw [List.pairwise_cons]
      refine ⟨?_, ih⟩
      intro y hy
      obtain ⟨b, hb, hfb⟩ := List.mem_filterMap.mp hy
      exact hf a b (hrel b hb) x hfa y hfb

theorem nanEntries_mem (ds : List (Option ℚ)) (i : ℕ) (v : ℚ) :
    (i, v) ∈ nanEntries ds ↔ ds[i]? = some (some v) := by
  rw [nanEntries, List.mem_filterMap]
  constructor
  · rintro ⟨⟨j, o⟩, hmem, hmap⟩
    cases o with
    | none => simp at hmap
    | some w =>
      simp only [Option.map_some, Option.some.injEq, Prod.mk.injEq] at hmap
      obtain ⟨rfl, rfl⟩ := hmap
      exact List.mem_enum_iff_getElem?.mp hmem
  · intro hget
    exact ⟨(i, some v), List.mem_enum_iff_getElem?.mpr hget, rfl⟩

theorem pairwise_nanEntries (ds : List (Option ℚ)) :
    List.Pairwise (fun a b : ℕ × ℚ => a.1 < b.1) (nanEntries ds) := by
  rw [nanEntries]
  apply pairwise_filterMap_of _ ?_ (pairwise_enumFrom ds 0)
  rintro ⟨i, o⟩ ⟨j, o2⟩ hij x hx y hy
  cases o with
  | none => simp at hx
  | some w =>
    cases o2 with
    | none => simp at hy
    | some w2 =>
      simp only [Option.map_some', Option.some.injEq] at hx hy
      rw [← hx, ← hy]
      exact hij

/-- Specification of the embedded `np.nanargmin` (plus `min_dist` lookup): it
fails exactly on an all-NaN row; a successful result points at a real (non-NaN)
entry, of minimal value, and at the first index attaining that minimum. -/
theorem nanargmin_spec (ds : List (Option ℚ)) :
    (nanargmin ds = none ↔ ∀ o ∈ ds, o = none)
    ∧ (∀ (i : ℕ) (v : ℚ), nanargmin ds = some (i, v) →
        ds[i]? = some (some v)
        ∧ (∀ (j : ℕ) (w : ℚ), ds[j]? = some (some w) → v ≤ w)
        ∧ (∀ (j : ℕ) (w : ℚ), ds[j]? = some (some w) → w ≤ v → i ≤ j)) := by
  constructor
  · rcases hne : nanEntries ds with - | ⟨e, es⟩
    · constructor
      · intro _ o ho
        cases o with
        | none => rfl
        | some v =>
          obtain ⟨i, hget⟩ := List.mem_iff_getElem?.mp ho
          have hmem := (nanEntries_mem ds i v).mpr hget
          rw [hne] at hmem
          exact absurd hmem (by simp)
      · intro _
        rw [nanargmin, hne]
    · constructor
      · intro hc
        rw [nanargmin, hne] at hc
        exact absurd hc (by simp)
      · intro hall
        exfalso
        have hmem : e ∈ nanEntries ds := by
          rw [hne]
          exact List.mem_cons_self _ _
        have hget := (nanEntries_mem ds e.1 e.2).mp hmem
        have hin : some e.2 ∈ ds := List.getElem?_mem hget
        exact absurd (hall _ hin) (by simp)
  · intro i v hiv
    rw [nanargmin] at hiv
    rcases hne : nanEntries ds with - | ⟨e, es⟩
    · rw [hne] at hiv
      exact absurd hiv (by simp)
    · rw [hne] at hiv
      simp only [Option.some.injEq] at hiv
      obtain ⟨hmem, hmin, hfirst⟩ := foldl_minPairAux_spec es e
      rw [hiv] at hmem hmin hfirst
      refine ⟨?_, ?_, ?_⟩
      · apply (nanEntries_mem ds i v).mp
        rw [hne]
        exact hmem
      · intro j w hjw
        have hjmem : (j, w) ∈ e :: es := by
          rw [← hne]
          exact (nanEntries_mem ds j w).mpr hjw
        exact hmin (j, w) hjmem
      · intro j w hjw hwv
        have hpw : List.Pairwise (fun a b : ℕ × ℚ => a.1 < b.1) (e :: es) := by
          rw [← hne]
          exact pairwise_nanEntries ds
        have hjmem : (j, w) ∈ e :: es := by
          rw [← hne]
          exact (nanEntries_mem ds j w).mpr hjw
        exact hfirst hpw (j, w) hjmem hwv

/-! ## Claim theorems -/

/-- C1: for a time-ordered vehicle-day, the consecutive pair (i, i+1) is kept
as an interval (a member of `dfv`) iff both readings' engine states are
`Parking - Engine On`, their `raw_place` is present and unchanged, and the
time difference in minutes is strictly positive and at most 5; the boundary
values behave as stated: `Δt = 5` qualifies, `Δt = 5.01`, `Δt = 0` and
negative `Δt` do not. -/
theorem claim_C1 :
    (∀ (rows : List Row) (i : ℕ) (h1 : i < rows.length) (h2 : i + 1 < rows.length),
      ((rows.get ⟨i, h1⟩, rows.get ⟨i + 1, h2⟩) ∈ dfvPairs rows ↔
        (engineStateOf (rows.get ⟨i + 1, h2⟩) = .parkedOn ∧
         engineStateOf (rows.get ⟨i, h1⟩) = .parkedOn ∧
         (∃ p, (rows.get ⟨i + 1, h2⟩).place = some p ∧
               (rows.get ⟨i, h1⟩).place = some p) ∧
         0 < (rows.get ⟨i + 1, h2⟩).t - (rows.get ⟨i, h1⟩).t ∧
         (rows.get ⟨i + 1, h2⟩).t - (rows.get ⟨i, h1⟩).t ≤ 5)))
    ∧ pairQualifies (rowP 0) (rowP 5) = true
    ∧ pairQualifies (rowP 0) (rowP (501 / 100)) = false
    ∧ pairQualifies (rowP 0) (rowP 0) = false
    ∧ pairQualifies (rowP 5) (rowP 0) = false := by
  refine ⟨?_,
    by norm_num [pairQualifies, rowP, engineStateOf, classify_engine_state,
      statusParked, placeEq],
    by norm_num [pairQualifies, rowP, engineStateOf, classify_engine_state,
      statusParked, placeEq],
    by norm_num [pairQualifies, rowP, engineStateOf, classify_engine_state,
      statusParked, placeEq],
    by norm_num [pairQualifies, rowP, engineStateOf, classify_engine_state,
      statusParked, placeEq]⟩
  intro rows i h1 h2
  have hzip : (rows.get ⟨i, h1⟩, rows.get ⟨i + 1, h2⟩) ∈ rows.zip rows.tail := by
    apply List.getElem?_mem (n := i)
    rw [List.getElem?_zip_eq_some]
    refine ⟨?_, ?_⟩
    · exact List.getElem?_eq_getElem h1
    · rw [List.getElem?_tail]
      exact List.getElem?_eq_getElem h2
  rw [dfvPairs, List.mem_filter]
  simp only [hzip, true_and]
  exact pairQualifies_iff _ _

/-- C1 witness: in the two-reading day `[rowP 0, rowP 5]` the pair (0, 1)
satisfies the conditions and is a qualifying interval. -/
theorem claim_C1_witness :
    ([rowP 0, rowP 5].get ⟨0, by decide⟩, [rowP 0, rowP 5].get ⟨1, by decide⟩)
      ∈ dfvPairs [rowP 0, rowP 5] :=
  (claim_C1.1 [rowP 0, rowP 5] 0 (by decide) (by decide)).mpr
    ⟨by decide, by decide, ⟨"Yard", rfl, rfl⟩, by norm_num [rowP], by norm_num [rowP]⟩

/-- C2: segmentation of the qualifying intervals of one vehicle-day is exactly
the chunking of the interval list at the break points: a new event starts at
an interval iff the distance from the previous interval's coordinates to its
coordinates is NaN or exceeds `max_distance` (the first interval, whose
shifted predecessor is NaN, always starts a new event); and each resulting
event record carries the sum of its member intervals' `time_diff` and the
arithmetic mean of their lat and lng.  Stated for every value `h` of the
haversine formula on parsed coordinates. -/
theorem claim_C2 (h : ℚ → ℚ → ℚ → ℚ → ℚ) (maxD : ℚ) (ivs : List Interval) :
    eventsOf (havOpt h) maxD ivs = (splitEvents (havOpt h) maxD ivs).map specAgg
    ∧ (∀ p c : Interval, breakFlag (havOpt h) maxD p c = true ↔
        (havOpt h p c = none ∨ ∃ x, havOpt h p c = some x ∧ maxD < x)) := by
  constructor
  · rw [events_eq_aggEvent_chunks]
    refine List.map_congr_left fun g hg => ?_
    have hprop := splitEvents_chunks_prop h maxD ivs g hg
    exact aggEvent_eq_specAgg g hprop.1 hprop.2
  · intro p c
    rw [breakFlag]
    cases hd : havOpt h p c with
    | none => simp
    | some x =>
      simp only [Option.some.injEq, decide_eq_true_eq]
      constructor
      · intro hx
        exact .inr ⟨x, rfl, hx⟩
      · rintro (hc | ⟨x2, hx2, hlt⟩)
        · exact absurd hc (by simp)
        · obtain rfl := hx2
          exact hlt

/-- C3: for an event with a non-NaN centroid (so a row of all non-NaN
distances `qs`, one per facility in input order) and a non-empty facility set,
the assignment picks the index of the minimal distance — the first such index
on ties — and returns that facility's code if the minimum is within
`max_distance`, else null; and (second conjunct) a NaN distance never wins:
the winning index of `nanargmin` always holds a non-NaN entry. -/
theorem claim_C3 (qs : List ℚ) (codes : List String) (maxD : ℚ) (hne : qs ≠ []) :
    (∃ i, ∃ hi : i < qs.length,
      (∀ j, ∀ hj : j < qs.length, qs.get ⟨i, hi⟩ ≤ qs.get ⟨j, hj⟩)
      ∧ (∀ j, ∀ hj : j < qs.length, qs.get ⟨j, hj⟩ ≤ qs.get ⟨i, hi⟩ → i ≤ j)
      ∧ nearest_plant (qs.map some) codes maxD =
          .ok (if qs.get ⟨i, hi⟩ ≤ maxD then codes.get? i else none))
    ∧ (∀ ds : List (Option ℚ), ∀ (i : ℕ) (v : ℚ), nanargmin ds = some (i, v) →
        ds[i]? = some (some v)) := by
  refine ⟨?_, fun ds i v hiv => ((nanargmin_spec ds).2 i v hiv).1⟩
  have hmapget : ∀ (j : ℕ) (hj : j < qs.length),
      (qs.map some)[j]? = some (some (qs.get ⟨j, hj⟩)) := by
    intro j hj
    rw [List.getElem?_map, List.getElem?_eq_getElem hj]
    rfl
  rcases hna : nanargmin (qs.map some) with - | ⟨i, v⟩
  · exfalso
    have hall := (nanargmin_spec (qs.map some)).1.mp hna
    rcases qs with - | ⟨q, t⟩
    · exact hne rfl
    · exact absurd (hall (some q) (by simp)) (by simp)
  · obtain ⟨hget, hmin, hfirst⟩ := (nanargmin_spec (qs.map some)).2 i v hna
    have hi : i < qs.length := by
      by_contra hcon
      push_neg at hcon
      rw [List.getElem?_eq_none (by simpa using hcon)] at hget
      exact absurd hget (by simp)
    have hqi : qs.get ⟨i, hi⟩ = v := by
      have h2 := hmapget i hi
      rw [h2] at hget
      simpa using hget
    refine ⟨i, hi, ?_, ?_, ?_⟩
    · intro j hj
      rw [hqi]
      exact hmin j _ (hmapget j hj)
    · intro j hj hle
      rw [hqi] at hle
      exact hfirst j _ (hmapget j hj) hle
    · simp only [nearest_plant, hna, hqi]

/-- C3 witness: three facilities at distances 5, 3, 3 with `max_distance` 200:
the selection is facility index 1 — the first of the two tied minima — and it
is within range. -/
theorem claim_C3_witness :
    (∃ i, ∃ hi : i < ([(5 : ℚ), 3, 3]).length,
      (∀ j, ∀ hj : j < ([(5 : ℚ), 3, 3]).length,
        ([(5 : ℚ), 3, 3]).get ⟨i, hi⟩ ≤ ([(5 : ℚ), 3, 3]).get ⟨j, hj⟩)
      ∧ (∀ j, ∀ hj : j < ([(5 : ℚ), 3, 3]).length,
          ([(5 : ℚ), 3, 3]).get ⟨j, hj⟩ ≤ ([(5 : ℚ), 3, 3]).get ⟨i, hi⟩ → i ≤ j)
      ∧ nearest_plant (([(5 : ℚ), 3, 3]).map some) ["A", "B", "C"] 200 =
          .ok (if ([(5 : ℚ), 3, 3]).get ⟨i, hi⟩ ≤ 200 then ["A", "B", "C"].get? i
               else none))
    ∧ (∀ ds : List (Option ℚ), ∀ (i : ℕ) (v : ℚ), nanargmin ds = some (i, v) →
        ds[i]? = some (some v)) :=
  claim_C3 [5, 3, 3] ["A", "B", "C"] 200 (by simp)

/-- C4 (code bug evaluation): a vehicle-day of two parked engine-on readings
with unparseable coordinate text yields one qualifying interval with NaN
coordinates, hence one event with a NaN centroid; its distance row to the
plants is all NaN and `np.nanargmin` raises
`ValueError: All-NaN slice encountered`, aborting the date instead of
emitting the event with a null `nearest_plant`. -/
theorem claim_C4_bug :
    processPlate hZero 200 [plantA] "X1" "01/12/2025" "2025-12-01"
      [rowBadCoord 0, rowBadCoord 3] = .error "All-NaN slice encountered" := by
  norm_num [processPlate, versionOf, classify_voltage_type, rowBadCoord, intervalsOf,
    dfvPairs, pairQualifies, engineStateOf, classify_engine_state, statusParked,
    placeEq, mkInterval, eventsOf, numEvents, eventFlags, eventIds, cumsum, grouped,
    aggEvent, pandasMean, attachNearest, nearest_plant, nanargmin, nanEntries,
    distRow, havOpt, breakFlag, hZero, plantA, List.lookup, List.enum]
  rw [if_neg (by decide : ¬ (VoltType.v2 = VoltType.v1))]

/-- C6: `classify_engine_state` is total with exactly the stated case split:
a non-parked status always gives `Other`, a NaN voltage while parked gives
`Unknown`, a parked voltage `≥ 25.0` gives `ParkedOn` (inclusive threshold:
exactly 25.0 is On, 24.999 is Off), anything else parked gives `ParkedOff`. -/
theorem claim_C6 (v : Option ℚ) (s : String) :
    (classify_engine_state v s = .other ∨ classify_engine_state v s = .unknown ∨
     classify_engine_state v s = .parkedOn ∨ classify_engine_state v s = .parkedOff)
    ∧ (s ≠ statusParked → classify_engine_state v s = .other)
    ∧ (s = statusParked → v = none → classify_engine_state v s = .unknown)
    ∧ (∀ x : ℚ, s = statusParked → v = some x → 25 ≤ x →
        classify_engine_state v s = .parkedOn)
    ∧ (∀ x : ℚ, s = statusParked → v = some x → x < 25 →
        classify_engine_state v s = .parkedOff)
    ∧ classify_engine_state (some 25) statusParked = .parkedOn
    ∧ classify_engine_state (some (mkRat 24999 1000)) statusParked = .parkedOff := by
  refine ⟨?_, ?_, ?_, ?_, ?_, by decide, by decide⟩
  · by_cases hs : s = statusParked
    · cases v with
      | none => simp [classify_engine_state, hs]
      | some x =>
        by_cases hx : 25 ≤ x <;> simp [classify_engine_state, hs, hx]
    · simp [classify_engine_state, hs]
  · intro hs
    simp [classify_engine_state, hs]
  · rintro hs rfl
    simp [classify_engine_state, hs]
  · rintro x hs rfl hx
    simp [classify_engine_state, hs, hx]
  · rintro x hs rfl hx
    simp [classify_engine_state, hs, not_le.mpr hx]

/-- C6 witness: concrete evaluations of each case. -/
theorem claim_C6_witness :
    classify_engine_state (some 30) "ขับรถ" = .other ∧
    classify_engine_state none statusParked = .unknown ∧
    classify_engine_state (some 30) statusParked = .parkedOn ∧
    classify_engine_state (some 10) statusParked = .parkedOff :=
  ⟨(claim_C6 (some 30) "ขับรถ").2.1 (by decide),
   (claim_C6 none statusParked).2.2.1 rfl rfl,
   (claim_C6 (some 30) statusParked).2.2.2.1 30 rfl rfl (by norm_num),
   (claim_C6 (some 10) statusParked).2.2.2.2.1 10 rfl rfl (by norm_num)⟩

/-- C7: the vehicle-day version is `v1` (Unsupported) iff some reading's
voltage is the sentinel string — taking priority over `v2` — else `v2`
(Numeric) iff some reading's voltage parses as a number; when neither label
occurs the group is skipped (`continue`), producing no output rows. -/
theorem claim_C7 (rows : List Row) :
    (versionOf rows = some VoltType.v1 ↔ ∃ r ∈ rows, r.vSentinel = true)
    ∧ (versionOf rows = some VoltType.v2 ↔
        ((∀ r ∈ rows, r.vSentinel = false) ∧ ∃ r ∈ rows, r.vnum.isSome = true))
    ∧ (versionOf rows = none ↔
        ∀ r ∈ rows, r.vSentinel = false ∧ r.vnum.isSome = false)
    ∧ (∀ hv maxD plants plate date dateKey, versionOf rows = none →
        processPlate hv maxD plants plate date dateKey rows = .ok none) := by
  have hA : (rows.any fun r => classify_voltage_type r == some VoltType.v1) = true ↔
      ∃ r ∈ rows, r.vSentinel = true := by
    rw [List.any_eq_true]
    exact exists_congr fun r => and_congr_right fun _ => classify_voltage_type_v1 r
  have hB : (rows.any fun r => classify_voltage_type r == some VoltType.v2) = true ↔
      ∃ r ∈ rows, (r.vSentinel = false ∧ r.vnum.isSome = true) := by
    rw [List.any_eq_true]
    exact exists_congr fun r => and_congr_right fun _ => classify_voltage_type_v2 r
  have hlast : ∀ hv maxD plants plate date dateKey, versionOf rows = none →
      processPlate hv maxD plants plate date dateKey rows = .ok none := by
    intro hv maxD plants plate date dateKey hnone
    simp [processPlate, hnone]
  by_cases h1 : (rows.any fun r => classify_voltage_type r == some VoltType.v1) = true
  · have hv : versionOf rows = some VoltType.v1 := by
      simp only [versionOf]
      rw [if_pos h1]
    obtain ⟨r0, hr0, hs0⟩ := hA.mp h1
    refine ⟨iff_of_true hv (hA.mp h1), ?_, ?_, hlast⟩
    · rw [hv]
      constructor
      · intro hc
        exact absurd hc (by simp)
      · rintro ⟨hall, -⟩
        rw [hall r0 hr0] at hs0
        exact absurd hs0 (by simp)
    · rw [hv]
      constructor
      · intro hc
        exact absurd hc (by simp)
      · intro hall
        rw [(hall r0 hr0).1] at hs0
        exact absurd hs0 (by simp)
  · have hno1 : ∀ r ∈ rows, r.vSentinel = false := by
      intro r hr
      cases hsv : r.vSentinel
      · rfl
      · exact absurd (hA.mpr ⟨r, hr, hsv⟩) h1
    have hnoex : ¬ ∃ r ∈ rows, r.vSentinel = true := by
      rintro ⟨r, hr, hs⟩
      rw [hno1 r hr] at hs
      exact absurd hs (by simp)
    by_cases h2 : (rows.any fun r => classify_voltage_type r == some VoltType.v2) = true
    · have hv : versionOf rows = some VoltType.v2 := by
        simp only [versionOf]
        rw [if_neg h1, if_pos h2]
      obtain ⟨r0, hr0, -, hn0⟩ := hB.mp h2
      refine ⟨iff_of_false (by rw [hv]; simp) hnoex, iff_of_true hv ⟨hno1, r0, hr0, hn0⟩,
        ?_, hlast⟩
      refine iff_of_false (by rw [hv]; simp) ?_
      intro hall
      rw [(hall r0 hr0).2] at hn0
      exact absurd hn0 (by simp)
    · have hno2 : ∀ r ∈ rows, r.vnum.isSome = false := by
        intro r hr
        cases hn : r.vnum.isSome
        · rfl
        · exact absurd (hB.mpr ⟨r, hr, hno1 r hr, hn⟩) h2
      have hv : versionOf rows = none := by
        simp only [versionOf]
        rw [if_neg h1, if_neg h2]
      refine ⟨iff_of_false (by rw [hv]; simp) hnoex, ?_,
        iff_of_true hv (fun r hr => ⟨hno1 r hr, hno2 r hr⟩), hlast⟩
      refine iff_of_false (by rw [hv]; simp) ?_
      rintro ⟨-, r, hr, hn⟩
      rw [hno2 r hr] at hn
      exact absurd hn (by simp)

/-- C7 witness: a vehicle-day whose only reading has an unparseable,
non-sentinel voltage gets no version and produces no output. -/
theorem claim_C7_witness :
    processPlate hZero 200 [plantA] "X1" "01/12/2025" "2025-12-01"
      [rowUnknownVolt 0] = .ok none :=
  (claim_C7 [rowUnknownVolt 0]).2.2.2 hZero 200 [plantA] "X1" "01/12/2025"
    "2025-12-01" (by decide)

/-- C8 counterexample: with the worker that raises on `01/12/2025` and
succeeds on `02/12/2025`, the sequential scheduling loop over the range
`[01/12/2025, 02/12/2025]` ends with the raised error and collects no
outcome at all for `02/12/2025` (which would succeed on its own), so a
per-date failure does abort the rest of the range. -/
theorem claim_C8_counterexample :
    run_sequential_dates badWorker ["01/12/2025", "02/12/2025"] = ([], some "boom")
    ∧ badWorker "02/12/2025" = .ok "02/12/2025: ok"
    ∧ (run_sequential_dates badWorker ["01/12/2025", "02/12/2025"]).1.length ≠ 1 := by
  refine ⟨rfl, rfl, by decide⟩

/-- C8 amended: in sequential mode the first failing date aborts the loop:
only the dates before it are processed and their outcomes collected, the
error propagates, and the dates after it are never processed. -/
theorem claim_C8_amended (f : String → Except String String) (pre rest : List String)
    (d e : String) (hfail : f d = .error e)
    (hok : ∀ x ∈ pre, ∃ r, f x = .ok r) :
    run_sequential_dates f (pre ++ d :: rest) =
      (pre.filterMap (fun x => (f x).toOption), some e) := by
  induction pre with
  | nil => simp [run_sequential_dates, hfail]
  | cons a as ih =>
    obtain ⟨r, hr⟩ := hok a (by simp)
    have hrest := ih (fun x hx => hok x (by simp [hx]))
    simp only [List.cons_append, run_sequential_dates, hr, List.append_eq, hrest,
      List.filterMap_cons, Except.toOption]

/-- C8 witness: the failing date `01/12/2025` placed between two good dates:
only the outcome of the earlier date is collected, the loop ends with the
error. -/
theorem claim_C8_witness :
    run_sequential_dates badWorker (["02/12/2025"] ++ "01/12/2025" :: ["03/12/2025"]) =
      (["02/12/2025"].filterMap (fun x => (badWorker x).toOption), some "boom") :=
  claim_C8_amended badWorker ["02/12/2025"] ["03/12/2025"] "01/12/2025" "boom" rfl
    (by
      intro x hx
      simp only [List.mem_singleton] at hx
      subst hx
      exact ⟨"02/12/2025: ok", rfl⟩)

/-- C9 counterexample: for a 10-wheel mixer (rate 2 ℓ/h) with 1 trip and 60
not-at-facility minutes, the code computes `not_plant_liter = 2.0` with no
trip-time deduction, while the claimed formula
`rate * max(0, minutes - trips*30) / 60` gives `1.0`. -/
theorem claim_C9_counterexample :
    (calculate_fuel fuelRowEx).2 = 2
    ∧ specFuelFormula (fuelRate fuelRowEx.vtype) fuelRowEx.notPlantMin fuelRowEx.trips = 1
    ∧ (2 : ℚ) ≠ 1 := by
  refine ⟨?_, ?_, by norm_num⟩
  · norm_num [calculate_fuel, fuelRowEx, fuelRate, FUEL_RATE, round2, roundHalfEven]
  · norm_num [specFuelFormula, fuelRowEx, fuelRate, FUEL_RATE, round2, roundHalfEven]

/-- C9 amended: the claimed formula (rate times the trip-reserve-deducted
minutes, clipped at 0, divided by 60, rounded to 2 decimals) is applied to the
at-facility minutes only; the not-at-facility liters are computed from the raw
not-at-facility minutes with no trip deduction (the claimed formula with 0
trips). -/
theorem claim_C9_amended (r : FuelRow) (hnp : 0 ≤ r.notPlantMin) :
    (calculate_fuel r).1 = specFuelFormula (fuelRate r.vtype) r.totalMin r.trips
    ∧ (calculate_fuel r).2 = specFuelFormula (fuelRate r.vtype) r.notPlantMin 0 := by
  constructor
  · show round2 (fuelRate r.vtype * (max (r.totalMin - r.trips * 30) 0 / 60)) =
      round2 (fuelRate r.vtype * max 0 (r.totalMin - r.trips * 30) / 60)
    rw [max_comm, mul_div_assoc]
  · show round2 (fuelRate r.vtype * (r.notPlantMin / 60)) =
      round2 (fuelRate r.vtype * max 0 (r.notPlantMin - 0 * 30) / 60)
    rw [zero_mul, sub_zero, max_eq_right hnp, mul_div_assoc]

/-- C9 witness: the amended statement evaluated on the concrete mixer row. -/
theorem claim_C9_witness :
    (calculate_fuel fuelRowEx).1 =
      specFuelFormula (fuelRate fuelRowEx.vtype) fuelRowEx.totalMin fuelRowEx.trips
    ∧ (calculate_fuel fuelRowEx).2 =
      specFuelFormula (fuelRate fuelRowEx.vtype) fuelRowEx.notPlantMin 0 :=
  claim_C9_amended fuelRowEx (by norm_num [fuelRowEx])

/-- C10: a vehicle-date's summary document is skipped iff every event of the
day has a null nearest plant; when it is written, its `total_engine_on_min`
sums exactly the events with a non-null nearest plant; and a successful
vehicle-day always emits one raw document per event (regardless of the
summary), with the summary built by the same rule. -/
theorem claim_C10 (plate date dateKey : String) (ver : VoltType)
    (events : List EventOut) :
    (summaryDoc plate date dateKey ver events = none ↔
      ∀ e ∈ events, e.nearest = none)
    ∧ (∀ doc, summaryDoc plate date dateKey ver events = some doc →
        doc.lookup "total_engine_on_min" =
          some (.q (((events.filter fun e => e.nearest.isSome).map
            fun e => e.er.total).sum)))
    ∧ (∀ hv maxD plants rows po,
        processPlate hv maxD plants plate date dateKey rows = .ok (some po) →
          po.raw = po.events.map (rawDoc plate date dateKey)
          ∧ po.summary = summaryDoc plate date dateKey po.version po.events) := by
  refine ⟨?_, ?_, ?_⟩
  · constructor
    · intro hnone e he
      by_contra hc
      have hsome : e.nearest.isSome = true := by
        cases hn : e.nearest
        · exact absurd hn hc
        · rfl
      have hmem : e ∈ events.filter (fun x => x.nearest.isSome) :=
        List.mem_filter.mpr ⟨he, hsome⟩
      rcases hfe : (events.filter fun x => x.nearest.isSome) with - | ⟨x, xs⟩
      · rw [hfe] at hmem
        exact absurd hmem (by simp)
      · simp [summaryDoc, hfe] at hnone
    · intro hall
      have hfe : (events.filter fun e => e.nearest.isSome) = [] :=
        List.filter_eq_nil_iff.mpr fun e he => by rw [hall e he]; simp
      simp [summaryDoc, hfe]
  · intro doc hdoc
    rcases hfe : (events.filter fun e => e.nearest.isSome) with - | ⟨x, xs⟩
    · simp [summaryDoc, hfe] at hdoc
    · simp only [summaryDoc, hfe, List.isEmpty_cons, Bool.false_eq_true, if_false,
        Option.some.injEq] at hdoc
      subst hdoc
      rw [hfe]
      simp [List.lookup]
  · intro hv maxD plants rows po hpo
    rcases hver : versionOf rows with - | ver2
    · simp only [processPlate, hver] at hpo
      exact absurd hpo (by simp)
    · simp only [processPlate, hver] at hpo
      by_cases hiv : (intervalsOf rows).isEmpty = true
      · rw [if_pos hiv] at hpo
        exact absurd hpo (by simp)
      · rw [if_neg hiv] at hpo
        rcases hat : attachNearest hv maxD plants
            (eventsOf (havOpt hv) maxD (intervalsOf rows)) with e | evs <;>
          rw [hat] at hpo
        · exact absurd hpo (by simp)
        · simp only [Except.ok.injEq, Option.some.injEq] at hpo
          subst hpo
          exact ⟨rfl, rfl⟩

/-- C10 witness: for the two-event day `[evAt, evNull]` the summary document
is written and its `total_engine_on_min` is 6, the total of the single
facility-matched event. -/
theorem claim_C10_witness :
    sumDocEx.lookup "total_engine_on_min" = some (Val.q 6) := by
  have h := (claim_C10 "X1" "01/12/2025" "2025-12-01" VoltType.v2 [evAt, evNull]).2.1
    sumDocEx (by
      norm_num [summaryDoc, evAt, evNull, sumDocEx]
      exact ⟨rfl, rfl⟩)
  rw [h]
  norm_num [evAt, evNull]

/-- C5 (code bug evaluation): the summary document written for the two-event
day `[evAt, evNull]` carries the at-facility minutes (6) and hours (0.1), but
contains no not-at-facility total at all — the key
`total_engine_on_min_not_plant` that the downstream consumer
`aggregate_engineon` reads is absent. -/
theorem claim_C5_bug :
    summaryDoc "X1" "01/12/2025" "2025-12-01" VoltType.v2 [evAt, evNull] = some sumDocEx
    ∧ sumDocEx.lookup "total_engine_on_min" = some (Val.q 6)
    ∧ sumDocEx.lookup "total_engine_on_hr" = some (Val.q (1 / 10))
    ∧ sumDocEx.lookup "total_engine_on_min_not_plant" = none := by
  refine ⟨by
      norm_num [summaryDoc, evAt, evNull, sumDocEx]
      exact ⟨rfl, rfl⟩, ?_, ?_, ?_⟩ <;>
    simp [sumDocEx, List.lookup]

end EngineOn
